import Mathlib

/-!
Shallow embedding of the pyoculus problem classes
(`PerturbedSlab.py`, `cartesian_bfield.py`, `spec_problem.py`)
over the real numbers, with theorems settling the specification
claims about them.

Conventions:
* numpy arrays of fixed size become `Fin n → ℝ`;
* numpy 2-D arrays become `Matrix (Fin n) (Fin m) ℝ`;
* `np.linalg.inv` becomes Mathlib's matrix inverse `⁻¹`;
* `np.mod(x, p)` (for real `x`, positive `p`) becomes `x - p * ⌊x / p⌋`;
* the abstract field callbacks `B` / `dBdX` of `CartesianBfield` become
  explicit function parameters.
-/

noncomputable section

namespace PerturbedSlab

/-- `PerturbedSlab.f`: RHS of Hamilton's equations for
`H(q,p,t) = p²/2 − k(cos(2q−t)/2 + cos(3q−2t)/3)`.
The state vector is `(p, q)`: `qp 0 = p`, `qp 1 = q`;
the result is `(dp/dt, dq/dt)`. Transcribed from
`PerturbedSlab.f` (PerturbedSlab.py, lines 56-73). -/
def f (k t : ℝ) (qp : Fin 2 → ℝ) : Fin 2 → ℝ :=
  let q := qp 1
  let p := qp 0
  let dqdt := p
  let dpdt := -k * (Real.sin (2 * q - t) + Real.sin (3 * q - 2 * t))
  ![dpdt, dqdt]

/-- `PerturbedSlab.f_tangent`: RHS of Hamilton's equations with the
2×2 tangent matrix unpacked column-major from `qp 2 .. qp 5`, propagated
by the analytic linearization, and repacked column-major. Transcribed
from `PerturbedSlab.f_tangent` (PerturbedSlab.py, lines 75-101); the
Python builds `M` by assigning into `np.zeros([2,2])`, rendered here as
the resulting matrix literal. -/
def f_tangent (k t : ℝ) (qp : Fin 6 → ℝ) : Fin 6 → ℝ :=
  let q := qp 1
  let p := qp 0
  let dpq : Matrix (Fin 2) (Fin 2) ℝ := !![qp 2, qp 4; qp 3, qp 5]
  let dqdt := p
  let dpdt := -k * (Real.sin (2 * q - t) + Real.sin (3 * q - 2 * t))
  let M : Matrix (Fin 2) (Fin 2) ℝ :=
    !![0, -k * (2 * Real.cos (2 * q - t) + 3 * Real.cos (3 * q - 2 * t));
       1, 0]
  let dqp := M * dpq
  ![dpdt, dqdt, dqp 0 0, dqp 1 0, dqp 0 1, dqp 1 1]

/-- `PerturbedSlab.convert_coords`: mod the second and third coordinates
by 2π, leave the first unchanged. Transcribed from
`PerturbedSlab.convert_coords` (PerturbedSlab.py, lines 106-109),
with `np.mod(x, p) = x - p*⌊x/p⌋` for positive `p`. -/
def convert_coords (incoords : Fin 3 → ℝ) : Fin 3 → ℝ :=
  ![incoords 0,
    incoords 1 - 2 * Real.pi * ⌊incoords 1 / (2 * Real.pi)⌋,
    incoords 2 - 2 * Real.pi * ⌊incoords 2 / (2 * Real.pi)⌋]

/-- Spec-side linearization matrix for the slab problem, following the
spec's words: `L[0,1] = −k·(2cos(2q−t) + 3cos(3q−2t))`, `L[1,0] = 1`,
all other entries `0`. -/
def L_spec (k t q : ℝ) : Matrix (Fin 2) (Fin 2) ℝ :=
  !![0, -k * (2 * Real.cos (2 * q - t) + 3 * Real.cos (3 * q - 2 * t));
     1, 0]

/-- Spec-side column-major unpacking of the 2×2 tangent matrix from the
tail of the size-6 extended state. -/
def unpackM (qp : Fin 6 → ℝ) : Matrix (Fin 2) (Fin 2) ℝ :=
  !![qp 2, qp 4; qp 3, qp 5]

end PerturbedSlab

namespace CartesianBfield

/-- `CartesianBfield._inv_Jacobian`: the analytic inverse Jacobian of the
Cartesian→cylindrical transform. Transcribed from
`CartesianBfield._inv_Jacobian` (cartesian_bfield.py, lines 107-113). -/
def inv_Jacobian (R phi Z : ℝ) : Matrix (Fin 3) (Fin 3) ℝ :=
  !![Real.cos phi, Real.sin phi, 0;
     -Real.sin phi / R, Real.cos phi / R, 0;
     0, 0, 1]

/-- The correction matrix `dinvJ` built inside
`CartesianBfield.f_RZ_tangent` (cartesian_bfield.py, lines 91-95),
with arguments `Bx = B[0,0]`, `By = B[1,0]`, `sinphi = sin φ`,
`cosphi = cos φ` and `R`, factored out as a named definition. -/
def dinvJ (Bx By sinphi cosphi R : ℝ) : Matrix (Fin 3) (Fin 3) ℝ :=
  !![0, -Bx * sinphi + By * cosphi, 0;
     Bx * sinphi / R ^ 2 - By * cosphi / R ^ 2,
       -Bx * cosphi / R - By * sinphi / R, 0;
     0, 0, 0]

/-- `CartesianBfield.f_RZ`: plain field-line RHS. The abstract callback
`self.B` becomes the explicit parameter `B`. Transcribed from
`CartesianBfield.f_RZ` (cartesian_bfield.py, lines 28-53). -/
def f_RZ (B : (Fin 3 → ℝ) → Fin 3 → ℝ) (phi : ℝ) (RZ : Fin 2 → ℝ) :
    Fin 2 → ℝ :=
  let R := RZ 0
  let Z := RZ 1
  let xyz : Fin 3 → ℝ := ![R * Real.cos phi, R * Real.sin phi, Z]
  let Bv := B xyz
  let dRphiZ := (inv_Jacobian R phi Z).mulVec Bv
  let dRdt := dRphiZ 0 / dRphiZ 1
  let dZdt := dRphiZ 2 / dRphiZ 1
  ![dRdt, dZdt]

/-- `CartesianBfield.f_RZ_tangent`: field-line RHS with tangent. The
abstract callbacks `self.B` and `self.dBdX` become the explicit
parameters `B` and `dBdX`; `np.linalg.inv` becomes the Mathlib matrix
inverse. Transcribed from `CartesianBfield.f_RZ_tangent`
(cartesian_bfield.py, lines 55-105); the Python builds `M` by assigning
into `np.zeros([2,2])`, rendered here as the resulting matrix literal. -/
def f_RZ_tangent (B : (Fin 3 → ℝ) → Fin 3 → ℝ)
    (dBdX : (Fin 3 → ℝ) → Matrix (Fin 3) (Fin 3) ℝ)
    (phi : ℝ) (RZ : Fin 6 → ℝ) : Fin 6 → ℝ :=
  let R := RZ 0
  let Z := RZ 1
  let cosphi := Real.cos phi
  let sinphi := Real.sin phi
  let dRZ : Matrix (Fin 2) (Fin 2) ℝ := !![RZ 2, RZ 4; RZ 3, RZ 5]
  let xyz : Fin 3 → ℝ := ![R * cosphi, R * sinphi, Z]
  let Bv := B xyz
  let Bx := Bv 0
  let By := Bv 1
  let dBdXv := dBdX xyz
  let invJacobian := inv_Jacobian R phi Z
  let Jacobian := invJacobian⁻¹
  let dRphiZ := invJacobian.mulVec Bv
  let dRdt := dRphiZ 0 / dRphiZ 1
  let dZdt := dRphiZ 2 / dRphiZ 1
  let dBdRphiZ := invJacobian * dBdXv * Jacobian + dinvJ Bx By sinphi cosphi R
  let M : Matrix (Fin 2) (Fin 2) ℝ :=
    !![dBdRphiZ 0 0 / dRphiZ 1 - dRphiZ 0 / dRphiZ 1 ^ 2 * dBdRphiZ 1 0,
       dBdRphiZ 0 2 / dRphiZ 1 - dRphiZ 0 / dRphiZ 1 ^ 2 * dBdRphiZ 1 2;
       dBdRphiZ 2 0 / dRphiZ 1 - dRphiZ 2 / dRphiZ 1 ^ 2 * dBdRphiZ 1 0,
       dBdRphiZ 2 2 / dRphiZ 1 - dRphiZ 2 / dRphiZ 1 ^ 2 * dBdRphiZ 1 2]
  let dRZo := M * dRZ
  ![dRdt, dZdt, dRZo 0 0, dRZo 1 0, dRZo 0 1, dRZo 1 1]

/-- The correction matrix exactly as claim C1 words it: row 1 zero;
row 2 = (−Bx·sinφ/R² + By·cosφ/R², −Bx·cosφ/R − By·sinφ/R, 0); row 0
has its second entry −Bx·sinφ + By·cosφ; all other entries zero.
Spec-side definition, to be compared with `dinvJ` from the source. -/
def dinvJ_claimC1 (Bx By sinphi cosphi R : ℝ) : Matrix (Fin 3) (Fin 3) ℝ :=
  !![0, -Bx * sinphi + By * cosphi, 0;
     0, 0, 0;
     -Bx * sinphi / R ^ 2 + By * cosphi / R ^ 2,
       -Bx * cosphi / R - By * sinphi / R, 0]

/-- The correction matrix as claim C1 reads after amendment: row 2 zero;
row 1 = (Bx·sinφ/R² − By·cosφ/R², −Bx·cosφ/R − By·sinφ/R, 0); row 0 has
its second entry −Bx·sinφ + By·cosφ; all other entries zero.
Spec-side definition, to be compared with `dinvJ` from the source. -/
def dinvJ_amendedC1 (Bx By sinphi cosphi R : ℝ) : Matrix (Fin 3) (Fin 3) ℝ :=
  !![0, -Bx * sinphi + By * cosphi, 0;
     Bx * sinphi / R ^ 2 - By * cosphi / R ^ 2,
       -Bx * cosphi / R - By * sinphi / R, 0;
     0, 0, 0]

/-- Embedding of the index set `{R-row 0, Z-row 2}` of the quotient rule
into the three cylindrical components. -/
def emb : Fin 2 → Fin 3 := ![0, 2]

/-- Spec-side quotient rule, following the spec's words: for output row
`i ∈ {0, 2}` and input column `j ∈ {0, 2}`,
`M[i,j] = dBdRφZ[i,j]/dRφZ[1] − (dRφZ[i]/dRφZ[1]²)·dBdRφZ[1,j]`. -/
def quotientM (A : Matrix (Fin 3) (Fin 3) ℝ) (v : Fin 3 → ℝ) :
    Matrix (Fin 2) (Fin 2) ℝ :=
  Matrix.of fun i j => A (emb i) (emb j) / v 1 - v (emb i) / v 1 ^ 2 * A 1 (emb j)

/-- Spec-side column-major unpacking of the 2×2 tangent matrix from the
tail of the size-6 extended cylindrical state. -/
def unpackT (RZ : Fin 6 → ℝ) : Matrix (Fin 2) (Fin 2) ℝ :=
  !![RZ 2, RZ 4; RZ 3, RZ 5]

/-- Spec-side description of the tangent pipeline, following the spec's
words and parametrized by the correction matrix `corr`: form the
cylindrical field gradient `J⁻¹·(Cartesian gradient)·J` plus the
correction, apply the quotient rule, and apply the resulting 2×2 matrix
to the unpacked tangent matrix, packing the result column-major after
the plain derivative. -/
def tangent_pipeline (corr : ℝ → ℝ → ℝ → ℝ → ℝ → Matrix (Fin 3) (Fin 3) ℝ)
    (B : (Fin 3 → ℝ) → Fin 3 → ℝ)
    (dBdX : (Fin 3 → ℝ) → Matrix (Fin 3) (Fin 3) ℝ)
    (phi : ℝ) (RZ : Fin 6 → ℝ) : Fin 6 → ℝ :=
  let R := RZ 0
  let Z := RZ 1
  let xyz : Fin 3 → ℝ := ![R * Real.cos phi, R * Real.sin phi, Z]
  let Bv := B xyz
  let invJ := inv_Jacobian R phi Z
  let dRphiZ := invJ.mulVec Bv
  let dBdRphiZ :=
    invJ * dBdX xyz * invJ⁻¹ + corr (Bv 0) (Bv 1) (Real.sin phi) (Real.cos phi) R
  let M := quotientM dBdRphiZ dRphiZ
  let T := M * unpackT RZ
  ![dRphiZ 0 / dRphiZ 1, dRphiZ 2 / dRphiZ 1, T 0 0, T 1 0, T 0 1, T 1 1]

end CartesianBfield

end

/-- The two fatal configuration errors `SPECProblem.__init__` can raise
(spec_problem.py: the version check at lines 19-21 and the volume-range
check at lines 57-87). -/
inductive SPECInitError where
  | versionTooOld
  | lvolOutOfBound
deriving DecidableEq

/-- Validation logic of `SPECProblem.__init__` (spec_problem.py,
lines 10-87): reject a dataset version below 2.2, then stage the
coefficients and succeed exactly when `0 < lvol ≤ Mvol`, rejecting the
volume index otherwise. The staging of the external module's variables
carries no information for the validation contract and is modelled as
the `Unit` success value. -/
def SPECProblem.init (version : ℚ) (Mvol lvol : ℤ) :
    Except SPECInitError Unit :=
  if version < 2.2 then Except.error SPECInitError.versionTooOld
  else if lvol > 0 ∧ lvol ≤ Mvol then Except.ok ()
  else Except.error SPECInitError.lvolOutOfBound

/-- The wrapped value `x - p⌊x/p⌋` lies in `[0, p)` when `p > 0`
(the semantics of `np.mod` with a positive modulus). -/
theorem npmod_mem (x p : ℝ) (hp : 0 < p) :
    0 ≤ x - p * ⌊x / p⌋ ∧ x - p * ⌊x / p⌋ < p := by
  have hne : p ≠ 0 := ne_of_gt hp
  have hcancel : p * (x / p) = x := by field_simp
  have hfr : x - p * ⌊x / p⌋ = p * Int.fract (x / p) := by
    rw [Int.fract, mul_sub, hcancel]
  rw [hfr]
  constructor
  · exact mul_nonneg hp.le (Int.fract_nonneg _)
  · calc p * Int.fract (x / p) < p * 1 :=
          mul_lt_mul_of_pos_left (Int.fract_lt_one _) hp
    _ = p := mul_one p

/-- A value already in `[0, p)` is left unchanged by `np.mod`. -/
theorem npmod_eq_self (x p : ℝ) (hp : 0 < p) (h0 : 0 ≤ x) (h1 : x < p) :
    x - p * ⌊x / p⌋ = x := by
  have hfl : ⌊x / p⌋ = 0 := by
    rw [Int.floor_eq_zero_iff]
    exact ⟨div_nonneg h0 hp.le, (div_lt_one hp).mpr h1⟩
  rw [hfl]
  ring

/-- C5: `f_tangent` unpacks the 2×2 tangent matrix column-major from the
tail of the size-6 extended state, propagates it by the exact
linearization `L` (`L[0,1] = −k·(2cos(2q−t)+3cos(3q−2t))`, `L[1,0] = 1`,
others 0), and repacks plain derivative followed by `L·M` flattened
column-major. -/
theorem C5_slab_f_tangent (k t : ℝ) (qp : Fin 6 → ℝ) :
    PerturbedSlab.f_tangent k t qp =
      ![-k * (Real.sin (2 * qp 1 - t) + Real.sin (3 * qp 1 - 2 * t)),
        qp 0,
        (PerturbedSlab.L_spec k t (qp 1) * PerturbedSlab.unpackM qp) 0 0,
        (PerturbedSlab.L_spec k t (qp 1) * PerturbedSlab.unpackM qp) 1 0,
        (PerturbedSlab.L_spec k t (qp 1) * PerturbedSlab.unpackM qp) 0 1,
        (PerturbedSlab.L_spec k t (qp 1) * PerturbedSlab.unpackM qp) 1 1] := by
  funext i
  fin_cases i <;>
    simp [PerturbedSlab.f_tangent, PerturbedSlab.L_spec, PerturbedSlab.unpackM]

/-- C7: `convert_coords` is idempotent on every 3-vector, leaves an angle
component already in `[0, 2π)` unchanged, and never alters the first
component. -/
theorem C7_convert_coords_normalization (v : Fin 3 → ℝ) :
    PerturbedSlab.convert_coords (PerturbedSlab.convert_coords v) =
      PerturbedSlab.convert_coords v ∧
    PerturbedSlab.convert_coords v 0 = v 0 ∧
    (0 ≤ v 1 → v 1 < 2 * Real.pi → PerturbedSlab.convert_coords v 1 = v 1) ∧
    (0 ≤ v 2 → v 2 < 2 * Real.pi → PerturbedSlab.convert_coords v 2 = v 2) := by
  have hp : (0:ℝ) < 2 * Real.pi := Real.two_pi_pos
  have hid : ∀ x : ℝ,
      (x - 2 * Real.pi * ⌊x / (2 * Real.pi)⌋) -
        2 * Real.pi *
          ⌊(x - 2 * Real.pi * ⌊x / (2 * Real.pi)⌋) / (2 * Real.pi)⌋ =
      x - 2 * Real.pi * ⌊x / (2 * Real.pi)⌋ := fun x =>
    npmod_eq_self _ _ hp (npmod_mem x _ hp).1 (npmod_mem x _ hp).2
  refine ⟨?_, rfl, ?_, ?_⟩
  · funext i
    fin_cases i
    · rfl
    · exact hid (v 1)
    · exact hid (v 2)
  · intro h0 h1
    exact npmod_eq_self _ _ hp h0 h1
  · intro h0 h1
    exact npmod_eq_self _ _ hp h0 h1

/-- C7 witness: the normalization properties hold at the concrete input
`(5, 1, 1)`, whose angle components lie in the canonical range. -/
theorem C7_convert_coords_normalization_witness :
    (0:ℝ) ≤ 1 ∧ (1:ℝ) < 2 * Real.pi ∧
    PerturbedSlab.convert_coords ![5, 1, 1] 1 = 1 ∧
    PerturbedSlab.convert_coords ![5, 1, 1] 2 = 1 := by
  have h0 : (0:ℝ) ≤ 1 := by norm_num
  have h1 : (1:ℝ) < 2 * Real.pi := by
    have := Real.pi_gt_three
    linarith
  have h := C7_convert_coords_normalization ![5, 1, 1]
  exact ⟨h0, h1, h.2.2.1 h0 h1, h.2.2.2 h0 h1⟩

/-- C4: for every `t`, `k` and state, the slab RHS `f` computes
`dq/dt = p` and `dp/dt = −k·(sin(2q−t) + sin(3q−2t))`, with input state
ordered `(p, q)` (`qp 0 = p`, `qp 1 = q`) and output ordered
`(dp/dt, dq/dt)`. -/
theorem C4_slab_f_hamilton (k t : ℝ) (qp : Fin 2 → ℝ) :
    PerturbedSlab.f k t qp 0 =
      -k * (Real.sin (2 * qp 1 - t) + Real.sin (3 * qp 1 - 2 * t)) ∧
    PerturbedSlab.f k t qp 1 = qp 0 := by
  constructor <;> simp [PerturbedSlab.f]

/-- C9: with `k = 0` and initial condition `p₀ = 1`, `q₀ = 0`, the curve
`p(t) = 1`, `q(t) = t` satisfies the slab ODE exactly (its derivative
equals `f` along it), and the matrix curve `M(t) = [[1,0],[t,1]]` in the
`(p,q)` ordering — packed column-major into the extended state
`(1, t, 1, t, 0, 1)` — satisfies the tangent ODE propagated by
`f_tangent`, starting from the identity at `t = 0`. -/
theorem C9_free_particle_flow (t : ℝ) :
    (∀ i : Fin 2, HasDerivAt (fun s => (![1, s] : Fin 2 → ℝ) i)
      (PerturbedSlab.f 0 t ![1, t] i) t) ∧
    (∀ i : Fin 6, HasDerivAt (fun s => (![1, s, 1, s, 0, 1] : Fin 6 → ℝ) i)
      (PerturbedSlab.f_tangent 0 t ![1, t, 1, t, 0, 1] i) t) ∧
    PerturbedSlab.unpackM ![1, 0, 1, 0, 0, 1] = 1 := by
  have hf : PerturbedSlab.f 0 t ![1, t] = ![0, 1] := by
    funext j
    fin_cases j <;> simp [PerturbedSlab.f]
  have hft :
      PerturbedSlab.f_tangent 0 t ![1, t, 1, t, 0, 1] = ![0, 1, 0, 1, 0, 0] := by
    funext j
    fin_cases j <;>
      simp [PerturbedSlab.f_tangent, Matrix.mul_apply, Fin.sum_univ_two]
  refine ⟨?_, ?_, ?_⟩
  · intro i
    fin_cases i
    · rw [hf]; exact hasDerivAt_const t 1
    · rw [hf]; exact hasDerivAt_id t
  · intro i
    fin_cases i
    · rw [hft]; exact hasDerivAt_const t 1
    · rw [hft]; exact hasDerivAt_id t
    · rw [hft]; exact hasDerivAt_const t 1
    · rw [hft]; exact hasDerivAt_id t
    · rw [hft]; exact hasDerivAt_const t 0
    · rw [hft]; exact hasDerivAt_const t 1
  · ext i j
    fin_cases i <;> fin_cases j <;>
      simp [PerturbedSlab.unpackM, Matrix.one_apply] <;> rfl

/-- C10: the first two components of `f_tangent` agree with `f` on the
trajectory part of the extended state, for every `t`, `k` and size-6
extended state, regardless of the tangent-matrix entries. -/
theorem C10_tangent_refines_plain (k t : ℝ) (s : Fin 6 → ℝ) :
    PerturbedSlab.f_tangent k t s 0 = PerturbedSlab.f k t ![s 0, s 1] 0 ∧
    PerturbedSlab.f_tangent k t s 1 = PerturbedSlab.f k t ![s 0, s 1] 1 := by
  constructor <;> simp [PerturbedSlab.f, PerturbedSlab.f_tangent]

/-- The 2×2 matrix literal built by the quotient-rule assignments in the
code equals the spec-side `quotientM` of the same gradient matrix and
rate vector. -/
theorem quotientM_literal (A : Matrix (Fin 3) (Fin 3) ℝ) (v : Fin 3 → ℝ) :
    (!![A 0 0 / v 1 - v 0 / v 1 ^ 2 * A 1 0,
        A 0 2 / v 1 - v 0 / v 1 ^ 2 * A 1 2;
        A 2 0 / v 1 - v 2 / v 1 ^ 2 * A 1 0,
        A 2 2 / v 1 - v 2 / v 1 ^ 2 * A 1 2] : Matrix (Fin 2) (Fin 2) ℝ) =
      CartesianBfield.quotientM A v := by
  ext i j
  fin_cases i <;> fin_cases j <;>
    simp [CartesianBfield.quotientM, CartesianBfield.emb]

/-- C1 counterexample: at the concrete input `Bx = 0`, `By = 1`, `φ = 0`,
`R = 1`, the correction matrix the code builds differs from the matrix
claim C1 describes: the code's entry `(1,0)` is `−1` while the claim
puts its nonzero first-column entry in row 2 and leaves row 1 zero. -/
theorem C1_correction_term_counterexample :
    CartesianBfield.dinvJ 0 1 (Real.sin 0) (Real.cos 0) 1 ≠
      CartesianBfield.dinvJ_claimC1 0 1 (Real.sin 0) (Real.cos 0) 1 := by
  intro h
  have h10 : CartesianBfield.dinvJ 0 1 (Real.sin 0) (Real.cos 0) 1 1 0 =
      CartesianBfield.dinvJ_claimC1 0 1 (Real.sin 0) (Real.cos 0) 1 1 0 := by
    rw [h]
  simp [CartesianBfield.dinvJ, CartesianBfield.dinvJ_claimC1] at h10

/-- C1 amended: the additive correction term is the matrix with row 2
zero, row 1 = `(Bx·sinφ/R² − By·cosφ/R², −Bx·cosφ/R − By·sinφ/R, 0)`,
row 0 second entry `−Bx·sinφ + By·cosφ`, all other entries zero; and
`f_RZ_tangent` adds exactly this matrix to `J⁻¹·(Cartesian gradient)·J`
before the quotient rule is applied. -/
theorem C1_correction_term_amended :
    (∀ Bx By sinphi cosphi R : ℝ,
      CartesianBfield.dinvJ Bx By sinphi cosphi R =
        CartesianBfield.dinvJ_amendedC1 Bx By sinphi cosphi R) ∧
    (∀ (B : (Fin 3 → ℝ) → Fin 3 → ℝ)
      (dBdX : (Fin 3 → ℝ) → Matrix (Fin 3) (Fin 3) ℝ) (phi : ℝ)
      (RZ : Fin 6 → ℝ),
      CartesianBfield.f_RZ_tangent B dBdX phi RZ =
        CartesianBfield.tangent_pipeline CartesianBfield.dinvJ_amendedC1
          B dBdX phi RZ) := by
  constructor
  · intro Bx By sinphi cosphi R
    rfl
  · intro B dBdX phi RZ
    simp only [CartesianBfield.f_RZ_tangent, CartesianBfield.tangent_pipeline,
      CartesianBfield.unpackT, CartesianBfield.dinvJ,
      CartesianBfield.dinvJ_amendedC1, quotientM_literal]

/-- C2: `f_RZ_tangent` forms the cylindrical field gradient
`J⁻¹·(Cartesian gradient)·J` plus the `dJ⁻¹` correction, applies the
quotient rule `M[i,j] = dBdRφZ[i,j]/dRφZ[1] −
(dRφZ[i]/dRφZ[1]²)·dBdRφZ[1,j]` over rows/columns `{0, 2}`, and returns
the result applied to the column-major unpacked tangent matrix, packed
column-major after the plain derivative. -/
theorem C2_tangent_quotient_rule (B : (Fin 3 → ℝ) → Fin 3 → ℝ)
    (dBdX : (Fin 3 → ℝ) → Matrix (Fin 3) (Fin 3) ℝ) (phi : ℝ)
    (RZ : Fin 6 → ℝ) :
    CartesianBfield.f_RZ_tangent B dBdX phi RZ =
      CartesianBfield.tangent_pipeline CartesianBfield.dinvJ
        B dBdX phi RZ := by
  simp only [CartesianBfield.f_RZ_tangent, CartesianBfield.tangent_pipeline,
    CartesianBfield.unpackT, quotientM_literal]

/-- C3: the analytic inverse Jacobian has entries `∂R/∂x = cosφ`,
`∂R/∂y = sinφ`, `∂φ/∂x = −sinφ/R`, `∂φ/∂y = cosφ/R`, `∂Z/∂z = 1` and
all other entries zero, and for `R > 0` the linear-algebra inverse `J`
satisfies `J · J⁻¹ = 1`. -/
theorem C3_inverse_jacobian_identity (R phi Z : ℝ) (hR : 0 < R) :
    CartesianBfield.inv_Jacobian R phi Z =
      !![Real.cos phi, Real.sin phi, 0;
         -Real.sin phi / R, Real.cos phi / R, 0;
         0, 0, 1] ∧
    (CartesianBfield.inv_Jacobian R phi Z)⁻¹ *
        CartesianBfield.inv_Jacobian R phi Z = 1 := by
  refine ⟨rfl, ?_⟩
  have hR0 : R ≠ 0 := ne_of_gt hR
  have hdet : (CartesianBfield.inv_Jacobian R phi Z).det = 1 / R := by
    simp [CartesianBfield.inv_Jacobian, Matrix.det_fin_three]
    field_simp
    linear_combination Real.sin_sq_add_cos_sq phi
  refine Matrix.nonsing_inv_mul _ ?_
  rw [hdet]
  exact isUnit_iff_ne_zero.mpr (one_div_ne_zero hR0)

/-- C3 witness: the inverse Jacobian at `R = 1`, `φ = 0`, `Z = 0` has
the stated entries and is inverted by its linear-algebra inverse. -/
theorem C3_inverse_jacobian_identity_witness :
    (0:ℝ) < 1 ∧
    (CartesianBfield.inv_Jacobian 1 0 0 =
      !![Real.cos 0, Real.sin 0, 0;
         -Real.sin 0 / 1, Real.cos 0 / 1, 0;
         0, 0, 1] ∧
    (CartesianBfield.inv_Jacobian 1 0 0)⁻¹ *
        CartesianBfield.inv_Jacobian 1 0 0 = 1) :=
  ⟨by norm_num, C3_inverse_jacobian_identity 1 0 0 (by norm_num)⟩

/-- C6: the plain field-line RHS converts `(R, φ, Z)` to the Cartesian
point `(R·cosφ, R·sinφ, Z)`, evaluates the field there, applies the
inverse Jacobian to obtain the cylindrical rates, and returns the R- and
Z-rates divided by the φ-rate; the division is applied unconditionally
(no guard when the φ-rate vanishes). -/
theorem C6_f_RZ_field_line (B : (Fin 3 → ℝ) → Fin 3 → ℝ) (phi : ℝ)
    (RZ : Fin 2 → ℝ) :
    CartesianBfield.f_RZ B phi RZ =
      ![(CartesianBfield.inv_Jacobian (RZ 0) phi (RZ 1)).mulVec
          (B ![RZ 0 * Real.cos phi, RZ 0 * Real.sin phi, RZ 1]) 0 /
            (CartesianBfield.inv_Jacobian (RZ 0) phi (RZ 1)).mulVec
          (B ![RZ 0 * Real.cos phi, RZ 0 * Real.sin phi, RZ 1]) 1,
        (CartesianBfield.inv_Jacobian (RZ 0) phi (RZ 1)).mulVec
          (B ![RZ 0 * Real.cos phi, RZ 0 * Real.sin phi, RZ 1]) 2 /
            (CartesianBfield.inv_Jacobian (RZ 0) phi (RZ 1)).mulVec
          (B ![RZ 0 * Real.cos phi, RZ 0 * Real.sin phi, RZ 1]) 1] ∧
    (∀ w : Fin 3 → ℝ,
      (CartesianBfield.inv_Jacobian (RZ 0) phi (RZ 1)).mulVec w =
        ![Real.cos phi * w 0 + Real.sin phi * w 1,
          -Real.sin phi / RZ 0 * w 0 + Real.cos phi / RZ 0 * w 1,
          w 2]) := by
  constructor
  · funext i
    fin_cases i <;> simp [CartesianBfield.f_RZ]
  · intro w
    funext i
    fin_cases i <;>
      simp [CartesianBfield.inv_Jacobian, Matrix.mulVec, Matrix.dotProduct,
        Fin.sum_univ_three]

/-- C8: `SPECProblem` construction succeeds exactly when the dataset
version is at least 2.2 and `1 ≤ lvol ≤ Mvol`; it fails with the
version error exactly when the version is below 2.2, and with the
volume-range error exactly when the version is acceptable but `lvol`
is 0, negative, or greater than `Mvol`. -/
theorem C8_spec_problem_validation (version : ℚ) (Mvol lvol : ℤ) :
    (SPECProblem.init version Mvol lvol = Except.ok () ↔
      2.2 ≤ version ∧ 1 ≤ lvol ∧ lvol ≤ Mvol) ∧
    (SPECProblem.init version Mvol lvol =
        Except.error SPECInitError.versionTooOld ↔ version < 2.2) ∧
    (SPECProblem.init version Mvol lvol =
        Except.error SPECInitError.lvolOutOfBound ↔
      2.2 ≤ version ∧ (lvol < 1 ∨ Mvol < lvol)) := by
  unfold SPECProblem.init
  split_ifs with h1 h2 <;>
    refine ⟨?_, ?_, ?_⟩ <;> simp_all [not_lt, not_and_or] <;> omega
